import Mathlib

/-!
# Blackjack game core: deck builder, hand scoring and the game state machine

A shallow embedding of the Go packages `deck` (`deck/card.go`) and `hand`
(`hand/hand.go`), followed by theorems about them.

Modelling conventions.

* A Go slice is a `List`; `append(s, x)` is `s ++ [x]`, `s[1:]` is the tail.
* `Suit` and `Rank` are `uint8` in the source and natural numbers here; the
  builder only ever creates values below 256, and `Jokers` reduces its loop
  index modulo 256 as the conversion `Rank(i)` does.
* `State` is `int8` in the source and an integer here; `ret.State++` wraps
  around at 127 as the machine increment does.
* Scores are Go `int`s. Every summand is between 0 and 10, so a score is a
  natural number and cannot overflow for a slice that fits in memory.
* A Go run-time panic is an `Except.error` carrying which panic it was.
* `BetAmount` is a `float64` that this package only copies; it is carried as
  its 64-bit pattern.
* The `fmt.Print*` calls have no effect on the returned state and are left out.
* `shuffleRand.Perm` is the only use of the random source; the source is a
  parameter of type `Permer`, the interface declared in `deck/card.go`.
-/

/-- The run-time panics the two packages can raise. -/
inductive Panic where
  /-- Indexing a slice outside its bounds (`cards[0]` on an empty slice). -/
  | indexOutOfRange
  /-- The explicit panic "It isn't currently any players' turn" of `CurrentPlayer`. -/
  | notAnyPlayersTurn
  deriving DecidableEq, Repr

deriving instance DecidableEq for Except

namespace deck

abbrev Suit := Nat

abbrev Spade : Suit := 0
abbrev Diamond : Suit := 1
abbrev Club : Suit := 2
abbrev Heart : Suit := 3
abbrev Joker : Suit := 4

/-- The array `suits` iterated by `New`: the four suits without the joker. -/
abbrev suits : List Suit := [Spade, Diamond, Club, Heart]

abbrev Rank := Nat

abbrev Ace : Rank := 1
abbrev Two : Rank := 2
abbrev Three : Rank := 3
abbrev Four : Rank := 4
abbrev Five : Rank := 5
abbrev Six : Rank := 6
abbrev Seven : Rank := 7
abbrev Eight : Rank := 8
abbrev Nine : Rank := 9
abbrev Ten : Rank := 10
abbrev Jack : Rank := 11
abbrev Queen : Rank := 12
abbrev King : Rank := 13

abbrev minRank : Rank := Ace
abbrev maxRank : Rank := King

structure Card where
  Suit : Nat
  Rank : Nat
  deriving DecidableEq, Repr, Inhabited

/-- An option of `New`: a function on card slices, which may panic. -/
abbrev Opt := List Card → Except Panic (List Card)

/-- The 52 cards appended by the nested suit/rank loop that opens `New`. -/
def New.cards : List Card :=
  suits.foldl
    (fun cards suit =>
      (List.range' minRank (maxRank + 1 - minRank)).foldl
        (fun cards rank => cards ++ [{ Suit := suit, Rank := rank }]) cards)
    []

/-- Go `New(opts...)`: build the 52 cards, then run the options from left to right. -/
def New (opts : List Opt) : Except Panic (List Card) :=
  opts.foldlM (fun cards opt => opt cards) New.cards

/-- Go `absRank`. -/
def absRank (c : Card) : Nat := c.Suit * maxRank + c.Rank

/-- The interface `Permer`: `Perm n` is the slice returned by `Perm(n)`. -/
structure Permer where
  Perm : Nat → List Nat

/-- One pass of the loop of `Shuffle`, `ret[i] = cards[j]` for the pair
`ij = (i, j)`: either index out of bounds is a panic. -/
def Shuffle.store (cards ret : List Card) (ij : Nat × Nat) : Except Panic (List Card) :=
  match cards[ij.2]? with
  | none => Except.error Panic.indexOutOfRange
  | some c =>
    if ij.1 < ret.length then Except.ok (ret.set ij.1 c)
    else Except.error Panic.indexOutOfRange

/-- Go `Shuffle`, with the package variable `shuffleRand` as a parameter.
`ret` starts as `len(cards)` zero cards and the loop runs over the pairs
`(i, j)` of `perm`. -/
def Shuffle (shuffleRand : Permer) (cards : List Card) : Except Panic (List Card) :=
  let ret : List Card := List.replicate cards.length { Suit := 0, Rank := 0 }
  let perm := shuffleRand.Perm cards.length
  perm.enum.foldlM (Shuffle.store cards) ret

/-- Go `Jokers(n)`: append the cards `{Rank(i), Joker}` for `i` from 0 up to `n`. -/
def Jokers (n : Int) : Opt := fun cards =>
  Except.ok
    ((List.range n.toNat).foldl
      (fun cards i => cards ++ [{ Suit := Joker, Rank := i % 256 }]) cards)

/-- Go `Filter(f)`: keep, in order, the cards on which `f` is false. -/
def Filter (f : Card → Bool) : Opt := fun c =>
  Except.ok
    (c.foldl (fun ret card => if !f card then ret ++ [card] else ret) [])

/-- Go `Deck(n)`: `n` copies of the input, one after the other (none for `n ≤ 0`). -/
def Deck (n : Int) : Opt := fun cards =>
  Except.ok ((List.range n.toNat).foldl (fun ret _ => ret ++ cards) [])

end deck

namespace hand

open deck

abbrev Hand := List Card

/-- The helper `min` of `hand.go`. -/
def min (a b : Nat) : Nat := if a < b then a else b

/-- Go `Hand.MinScore`: every card counts `min(rank, 10)`. -/
def MinScore (h : Hand) : Nat :=
  h.foldl (fun score c => score + min c.Rank 10) 0

/-- The `for` loop of `Hand.Score`: return `minScore + 10` at the first ace,
`minScore` when the loop runs off the end. -/
def Score.loop (minScore : Nat) : Hand → Nat
  | [] => minScore
  | c :: rest => if c.Rank = Ace then minScore + 10 else Score.loop minScore rest

/-- Go `Hand.Score`. -/
def Score (h : Hand) : Nat :=
  let minScore := MinScore h
  if minScore > 11 then minScore else Score.loop minScore h

abbrev State := Int

abbrev StatePlayerTurn : State := 0
abbrev StateDealerTurn : State := 1
abbrev StateHandOver : State := 2

/-- The increment `State++` on an `int8`: 127 wraps around to -128. -/
def State.incr (s : State) : State := (s + 1 + 128) % 256 - 128

structure GameState where
  Deck : List Card
  State : State
  Player : Hand
  Dealer : Hand
  BetAmount : Nat
  BetCurrency : String
  deriving DecidableEq, Repr

/-- Go `clone`: a field-by-field copy. -/
def clone (gs : GameState) : GameState :=
  { Deck := gs.Deck
    State := gs.State
    Player := gs.Player
    Dealer := gs.Dealer
    BetAmount := gs.BetAmount
    BetCurrency := gs.BetCurrency }

/-- Go `draw`: the first card and the rest; `cards[0]` panics on an empty slice. -/
def draw : List Card → Except Panic (Card × List Card)
  | [] => Except.error Panic.indexOutOfRange
  | card :: rest => Except.ok (card, rest)

/-- Which field of the state the pointer returned by `CurrentPlayer` aims at. -/
inductive HandRef where
  | Player
  | Dealer
  deriving DecidableEq, Repr

/-- Reading through the pointer. -/
def HandRef.get (r : HandRef) (gs : GameState) : Hand :=
  match r with
  | HandRef.Player => gs.Player
  | HandRef.Dealer => gs.Dealer

/-- Writing through the pointer. -/
def HandRef.set (r : HandRef) (gs : GameState) (h : Hand) : GameState :=
  match r with
  | HandRef.Player => { gs with Player := h }
  | HandRef.Dealer => { gs with Dealer := h }

/-- Go `GameState.CurrentPlayer`. -/
def GameState.CurrentPlayer (gs : GameState) : Except Panic HandRef :=
  if gs.State = StatePlayerTurn then Except.ok HandRef.Player
  else if gs.State = StateDealerTurn then Except.ok HandRef.Dealer
  else Except.error Panic.notAnyPlayersTurn

/-- Go `Shuffle` of package `hand`: a fresh three-deck shuffled deck. -/
def Shuffle (shuffleRand : Permer) (gs : GameState) : Except Panic GameState := do
  let ret := clone gs
  let cards ← deck.New [deck.Deck 3, deck.Shuffle shuffleRand]
  pure { ret with Deck := cards }

/-- One pass of the loop of `Deal`: a card to the player, then one to the dealer. -/
def Deal.step (ret : GameState) : Except Panic GameState := do
  let (card, rest) ← draw ret.Deck
  let ret := { ret with Deck := rest }
  let ret := { ret with Player := ret.Player ++ [card] }
  let (card, rest) ← draw ret.Deck
  let ret := { ret with Deck := rest }
  pure { ret with Dealer := ret.Dealer ++ [card] }

/-- Go `Deal`. -/
def Deal (gs : GameState) : Except Panic GameState := do
  let ret := clone gs
  let ret := { ret with Player := [] }
  let ret := { ret with Dealer := [] }
  let ret ← (List.range 2).foldlM (fun ret _ => Deal.step ret) ret
  pure { ret with State := StatePlayerTurn }

/-- Go `Hit`. -/
def Hit (gs : GameState) : Except Panic GameState := do
  let ret := clone gs
  let hand ← ret.CurrentPlayer
  let (card, rest) ← draw ret.Deck
  let ret := { ret with Deck := rest }
  let ret := hand.set ret (hand.get ret ++ [card])
  if Score (hand.get ret) > 21 then
    pure { ret with State := StateHandOver }
  else
    pure ret

/-- The condition of the dealer loop in `Stand`. -/
def Stand.cond (dealer : Hand) : Bool :=
  decide (Score dealer < 17) || (decide (Score dealer = 17) && decide (MinScore dealer ≠ 17))

/-- The dealer loop of `Stand` on the pair (`ret.Dealer`, `ret.Deck`): while
the condition holds, draw a card and append it; the draw panics on an empty
deck. Every pass shortens the deck, so the recursion is on the deck and the
loop always ends, with a state or with that panic. -/
def Stand.loop : Hand → List Card → Except Panic (Hand × List Card)
  | dealer, [] =>
    if Stand.cond dealer then Except.error Panic.indexOutOfRange
    else Except.ok (dealer, [])
  | dealer, card :: rest =>
    if Stand.cond dealer then Stand.loop (dealer ++ [card]) rest
    else Except.ok (dealer, card :: rest)

/-- Go `Stand`. -/
def Stand (gs : GameState) : Except Panic GameState := do
  let ret := clone gs
  let ret := { ret with State := State.incr ret.State }
  if ret.State = StateDealerTurn then
    let (dealer, rest) ← Stand.loop ret.Dealer ret.Deck
    let ret := { ret with Dealer := dealer, Deck := rest }
    pure { ret with State := StateHandOver }
  else
    pure ret

/-- The outcome announced by the `switch` of `EndHand`. -/
inductive Outcome where
  | PlayerBust
  | DealerBust
  | PlayerWin
  | DealerWin
  | Push
  deriving DecidableEq, Repr

/-- The `switch` of `EndHand` on the two scores. -/
def EndHand.outcome (gs : GameState) : Outcome :=
  let pScore := Score gs.Player
  let dScore := Score gs.Dealer
  if pScore > 21 then Outcome.PlayerBust
  else if dScore > 21 then Outcome.DealerBust
  else if pScore > dScore then Outcome.PlayerWin
  else if dScore > pScore then Outcome.DealerWin
  else Outcome.Push

/-- Go `EndHand`: both hands are set to `nil`. -/
def EndHand (gs : GameState) : GameState :=
  let ret := clone gs
  let ret := { ret with Player := [] }
  { ret with Dealer := [] }

end hand

/-! ## Definitions that follow the specification

These are not taken from the source: they say in the specification's words
what the source is compared with. -/

namespace bestTotal

open deck hand

/-- All totals of a hand when each ace counts, independently of the others,
as 1 or as 11 and every other card counts `min(rank, 10)`. -/
def totals : Hand → List Nat
  | [] => [0]
  | c :: rest =>
    if c.Rank = Ace then
      (totals rest).map (fun t => 1 + t) ++ (totals rest).map (fun t => 11 + t)
    else (totals rest).map (fun t => Min.min c.Rank 10 + t)

end bestTotal

/-- Number of aces of a hand. -/
def hand.aces (h : hand.Hand) : Nat := h.countP (fun c => decide (c.Rank = deck.Ace))

/-- Three standard 52-card decks, one after the other. -/
def threeDecks : List deck.Card := deck.New.cards ++ deck.New.cards ++ deck.New.cards

/-! ## Sample states used to instantiate the theorems -/

namespace sample

open deck hand

/-- A finished hand with five cards left in the deck. -/
def finished : GameState :=
  { Deck := [{ Suit := Spade, Rank := Five }, { Suit := Heart, Rank := Six },
             { Suit := Club, Rank := King }, { Suit := Diamond, Rank := Ace },
             { Suit := Spade, Rank := Two }]
    State := StateHandOver
    Player := [{ Suit := Heart, Rank := Ten }, { Suit := Club, Rank := Nine },
               { Suit := Spade, Rank := King }]
    Dealer := [{ Suit := Diamond, Rank := Ten }, { Suit := Diamond, Rank := Seven }]
    BetAmount := 4617315517961601024
    BetCurrency := "cash" }

/-- The player, holding [Ten, Nine], is about to draw a King. -/
def tenNine : GameState :=
  { Deck := [{ Suit := Spade, Rank := King }, { Suit := Heart, Rank := Two }]
    State := StatePlayerTurn
    Player := [{ Suit := Heart, Rank := Ten }, { Suit := Club, Rank := Nine }]
    Dealer := [{ Suit := Diamond, Rank := Six }, { Suit := Diamond, Rank := Seven }]
    BetAmount := 4617315517961601024
    BetCurrency := "solana" }

/-- The dealer holds [Ten, Six], 16 points, when the player stands. -/
def dealerSixteen : GameState :=
  { Deck := [{ Suit := Spade, Rank := Ace }, { Suit := Heart, Rank := Three },
             { Suit := Club, Rank := Queen }]
    State := StatePlayerTurn
    Player := [{ Suit := Heart, Rank := Ten }, { Suit := Club, Rank := Nine }]
    Dealer := [{ Suit := Diamond, Rank := Ten }, { Suit := Diamond, Rank := Six }]
    BetAmount := 4617315517961601024
    BetCurrency := "cash" }

/-- The state in which `main.go` creates a game: nothing but the phase. -/
def fresh : GameState :=
  { Deck := []
    State := StatePlayerTurn
    Player := []
    Dealer := []
    BetAmount := 0
    BetCurrency := "" }

/-- A random source that answers `Perm(n)` with `n-1, ..., 1, 0`. -/
def backwards : Permer := { Perm := fun n => (List.range n).reverse }

end sample

/-! ## Sequences of calls -/

/-- The outcome of `n` calls of `Stand` in a row, each on the state returned
by the one before, as `n` requests to the stand handler make. -/
def hand.standTimes : Nat → hand.GameState → Except Panic hand.GameState
  | 0, gs => Except.ok gs
  | n + 1, gs => hand.Stand gs >>= hand.standTimes n

/-- The states of one shuffle lifetime: the state returned by `Shuffle` on a
state with empty hands, and every state returned by a successful `Deal`,
`Hit` or `Stand`, or by `EndHand`, on such a state. -/
inductive hand.Reachable (r : deck.Permer) : hand.GameState → Prop
  | shuffle (gs0 gs : hand.GameState) :
      gs0.Player = [] → gs0.Dealer = [] → hand.Shuffle r gs0 = Except.ok gs →
      hand.Reachable r gs
  | deal (gs gs' : hand.GameState) :
      hand.Reachable r gs → hand.Deal gs = Except.ok gs' → hand.Reachable r gs'
  | hit (gs gs' : hand.GameState) :
      hand.Reachable r gs → hand.Hit gs = Except.ok gs' → hand.Reachable r gs'
  | stand (gs gs' : hand.GameState) :
      hand.Reachable r gs → hand.Stand gs = Except.ok gs' → hand.Reachable r gs'
  | endHand (gs : hand.GameState) :
      hand.Reachable r gs → hand.Reachable r (hand.EndHand gs)

/-! ## Scoring -/

section Scoring

open deck hand

theorem hand.min_eq (a b : Nat) : hand.min a b = Min.min a b := by
  unfold hand.min
  split_ifs <;> omega

theorem hand.MinScore_foldl (h : Hand) (a : Nat) :
    h.foldl (fun score c => score + hand.min c.Rank 10) a
      = a + (h.map (fun c => Min.min c.Rank 10)).sum := by
  induction h generalizing a with
  | nil => simp
  | cons c rest ih =>
    rw [List.foldl_cons, ih, hand.min_eq, List.map_cons, List.sum_cons]
    omega

theorem hand.MinScore_eq_sum (h : Hand) :
    MinScore h = (h.map (fun c => Min.min c.Rank 10)).sum := by
  simp [MinScore, hand.MinScore_foldl]

theorem hand.MinScore_cons (c : Card) (h : Hand) :
    MinScore (c :: h) = Min.min c.Rank 10 + MinScore h := by
  simp [hand.MinScore_eq_sum]

theorem hand.Score_loop_eq (m : Nat) (h : Hand) :
    Score.loop m h = if (∃ c ∈ h, c.Rank = Ace) then m + 10 else m := by
  induction h with
  | nil => simp [Score.loop]
  | cons c rest ih =>
    by_cases hc : c.Rank = Ace
    · simp [Score.loop, hc]
    · simp [Score.loop, hc, ih]

theorem hand.Score_eq (h : Hand) :
    Score h
      = if MinScore h ≤ 11 ∧ (∃ c ∈ h, c.Rank = Ace) then MinScore h + 10
        else MinScore h := by
  unfold Score
  simp only [hand.Score_loop_eq]
  by_cases h1 : MinScore h > 11
  · have : ¬ (MinScore h ≤ 11) := by omega
    simp [h1, this]
  · have : MinScore h ≤ 11 := by omega
    simp [h1, this]

/-- C1: for every hand, `MinScore` is the sum of `min(rank, 10)` over its
cards (Ace 1, Two to Ten their face value, Jack, Queen and King 10), and
`Score` is `MinScore + 10` when `MinScore ≤ 11` and the hand holds an ace,
and `MinScore` in every other case. [Ace, King] scores 21 and
[King, Queen, Five] scores 25. -/
theorem hand.Score_soft_or_hard (h : Hand) :
    MinScore h = (h.map (fun c => Min.min c.Rank 10)).sum ∧
    [Ace, Two, Three, Four, Five, Six, Seven, Eight, Nine, Ten, Jack, Queen, King].map
        (fun r => MinScore [{ Suit := Spade, Rank := r }])
      = [1, 2, 3, 4, 5, 6, 7, 8, 9, 10, 10, 10, 10] ∧
    Score h
      = (if MinScore h ≤ 11 ∧ (∃ c ∈ h, c.Rank = Ace) then MinScore h + 10
         else MinScore h) ∧
    Score [{ Suit := Spade, Rank := Ace }, { Suit := Heart, Rank := King }] = 21 ∧
    Score [{ Suit := Spade, Rank := King }, { Suit := Club, Rank := Queen },
           { Suit := Diamond, Rank := Five }] = 25 :=
  ⟨hand.MinScore_eq_sum h, by decide, hand.Score_eq h, by decide, by decide⟩

theorem hand.aces_cons_ace (c : Card) (h : Hand) (hc : c.Rank = Ace) :
    aces (c :: h) = aces h + 1 := by
  simp [aces, List.countP_cons, hc]

theorem hand.aces_cons_other (c : Card) (h : Hand) (hc : ¬ c.Rank = Ace) :
    aces (c :: h) = aces h := by
  simp [aces, List.countP_cons, hc]

theorem hand.aces_pos_iff (h : Hand) : 0 < aces h ↔ ∃ c ∈ h, c.Rank = Ace := by
  simp [aces, List.countP_pos_iff]

theorem hand.aces_le_MinScore (h : Hand) : aces h ≤ MinScore h := by
  induction h with
  | nil => simp [aces]
  | cons c rest ih =>
    rw [hand.MinScore_cons]
    by_cases hc : c.Rank = Ace
    · have hc1 : c.Rank = 1 := hc
      rw [hand.aces_cons_ace c rest hc, hc1]
      omega
    · rw [hand.aces_cons_other c rest hc]
      omega

/-- The totals of a hand are its `MinScore` plus ten for each ace promoted. -/
theorem bestTotal.mem_totals_iff (h : Hand) (t : Nat) :
    t ∈ bestTotal.totals h ↔ ∃ j, j ≤ aces h ∧ t = MinScore h + 10 * j := by
  induction h generalizing t with
  | nil => simp [bestTotal.totals, aces, MinScore]
  | cons c rest ih =>
    rw [hand.MinScore_cons]
    by_cases hc : c.Rank = Ace
    · rw [hand.aces_cons_ace c rest hc]
      simp only [bestTotal.totals, hc, if_true, List.mem_append, List.mem_map, ih]
      have hmin : Min.min Ace 10 = 1 := rfl
      rw [hmin]
      constructor
      · rintro (⟨t', ⟨j, hj, rfl⟩, rfl⟩ | ⟨t', ⟨j, hj, rfl⟩, rfl⟩)
        · exact ⟨j, by omega, by omega⟩
        · exact ⟨j + 1, by omega, by omega⟩
      · rintro ⟨j, hj, rfl⟩
        by_cases hj' : j ≤ aces rest
        · exact Or.inl ⟨MinScore rest + 10 * j, ⟨j, hj', rfl⟩, by omega⟩
        · exact Or.inr ⟨MinScore rest + 10 * (j - 1), ⟨j - 1, by omega, rfl⟩, by omega⟩
    · rw [hand.aces_cons_other c rest hc]
      simp only [bestTotal.totals, hc, if_false, List.mem_map, ih]
      constructor
      · rintro ⟨t', ⟨j, hj, rfl⟩, rfl⟩
        exact ⟨j, hj, by omega⟩
      · rintro ⟨j, hj, rfl⟩
        exact ⟨MinScore rest + 10 * j, ⟨j, hj, rfl⟩, by omega⟩

/-- C2: for every hand whose cards all have a rank from Ace to King, `Score`
is one of the totals obtained by counting each ace as 1 or 11; when some
total is at most 21 it is the largest such total, and otherwise it is the
smallest total, the one that counts every ace as 1. -/
theorem hand.Score_best_valid_total (h : Hand)
    (hr : ∀ c ∈ h, Ace ≤ c.Rank ∧ c.Rank ≤ King) :
    Score h ∈ bestTotal.totals h ∧
    ((∃ t ∈ bestTotal.totals h, t ≤ 21) →
      Score h ≤ 21 ∧ ∀ t ∈ bestTotal.totals h, t ≤ 21 → t ≤ Score h) ∧
    ((¬ ∃ t ∈ bestTotal.totals h, t ≤ 21) →
      Score h = MinScore h ∧ ∀ t ∈ bestTotal.totals h, Score h ≤ t) := by
  have _ := hr
  have hk := hand.aces_le_MinScore h
  have hp := hand.aces_pos_iff h
  have hs := hand.Score_eq h
  simp only [bestTotal.mem_totals_iff]
  by_cases hA : ∃ c ∈ h, c.Rank = Ace
  · have hpos : 0 < aces h := hp.mpr hA
    by_cases hm : MinScore h ≤ 11
    · rw [if_pos ⟨hm, hA⟩] at hs
      refine ⟨⟨1, by omega, by omega⟩, ?_, ?_⟩
      · rintro -
        refine ⟨by omega, ?_⟩
        rintro t ⟨j, hj, rfl⟩ ht
        omega
      · intro hno
        exact absurd ⟨MinScore h, ⟨0, by omega, by omega⟩, by omega⟩ hno
    · rw [if_neg (fun hc => hm hc.1)] at hs
      refine ⟨⟨0, by omega, by omega⟩, ?_, ?_⟩
      · rintro ⟨t, ⟨j, hj, rfl⟩, ht⟩
        refine ⟨by omega, ?_⟩
        rintro t ⟨j, hj, rfl⟩ ht
        omega
      · intro _
        refine ⟨hs, ?_⟩
        rintro t ⟨j, hj, rfl⟩
        omega
  · have h0 : aces h = 0 := by
      rcases Nat.eq_zero_or_pos (aces h) with h0 | h0
      · exact h0
      · exact absurd (hp.mp h0) hA
    rw [if_neg (fun hc => hA hc.2)] at hs
    refine ⟨⟨0, by omega, by omega⟩, ?_, ?_⟩
    · rintro ⟨t, ⟨j, hj, rfl⟩, ht⟩
      refine ⟨by omega, ?_⟩
      rintro t ⟨j, hj, rfl⟩ ht
      omega
    · intro _
      refine ⟨hs, ?_⟩
      rintro t ⟨j, hj, rfl⟩
      omega

/-- C2 at the hand [Ace, Ace, Nine]: its totals are 11, 21, 21 and 31, and it
scores 21, the largest total not above 21. -/
theorem hand.Score_best_valid_total_witness :
    bestTotal.totals [{ Suit := Spade, Rank := Ace }, { Suit := Heart, Rank := Ace },
        { Suit := Club, Rank := Nine }] = [11, 21, 21, 31] ∧
    Score [{ Suit := Spade, Rank := Ace }, { Suit := Heart, Rank := Ace },
        { Suit := Club, Rank := Nine }] = 21 ∧
    (∀ t ∈ bestTotal.totals [{ Suit := Spade, Rank := Ace }, { Suit := Heart, Rank := Ace },
        { Suit := Club, Rank := Nine }], t ≤ 21 →
      t ≤ Score [{ Suit := Spade, Rank := Ace }, { Suit := Heart, Rank := Ace },
        { Suit := Club, Rank := Nine }]) :=
  ⟨by decide, by decide,
    ((hand.Score_best_valid_total
        [{ Suit := Spade, Rank := Ace }, { Suit := Heart, Rank := Ace },
          { Suit := Club, Rank := Nine }]
        (by decide)).2.1 ⟨11, by decide, by decide⟩).2⟩

end Scoring

/-! ## Dealing and hitting -/

section Transitions

open deck hand

/-- C3: whatever the previous hands and phase, on a deck `d` of at least four
cards `Deal` returns the state with Player `[d[0], d[2]]`, Dealer
`[d[1], d[3]]`, Deck `d` without its first four cards, phase PlayerTurn and
the bet fields of the input; the four dealt cards, in the order player,
dealer, player, dealer, followed by the remaining deck are `d` again, and the
two hands together with the remaining deck are a rearrangement of `d`. -/
theorem hand.Deal_four_cards (gs : GameState) (h4 : 4 ≤ gs.Deck.length) :
    Deal gs = Except.ok
      { Deck := gs.Deck.drop 4
        State := StatePlayerTurn
        Player := [gs.Deck[0], gs.Deck[2]]
        Dealer := [gs.Deck[1], gs.Deck[3]]
        BetAmount := gs.BetAmount
        BetCurrency := gs.BetCurrency } ∧
    (gs.Deck.drop 4).length + 4 = gs.Deck.length ∧
    gs.Deck[0] :: gs.Deck[1] :: gs.Deck[2] :: gs.Deck[3] :: gs.Deck.drop 4 = gs.Deck ∧
    ([gs.Deck[0], gs.Deck[2]] ++ [gs.Deck[1], gs.Deck[3]] ++ gs.Deck.drop 4).Perm gs.Deck := by
  obtain ⟨d, st, p, dl, ba, bc⟩ := gs
  match d, h4 with
  | c0 :: c1 :: c2 :: c3 :: rest, _ =>
    refine ⟨rfl, by simp, rfl, ?_⟩
    simp only [List.getElem_cons_zero, List.getElem_cons_succ, List.drop_succ_cons,
      List.drop_zero, List.cons_append, List.nil_append]
    exact List.Perm.cons _ (List.Perm.swap _ _ _)

/-- C3 on a finished hand: the five-card deck Five, Six, King, Ace, Two gives
the player [Five, King], the dealer [Six, Ace], leaves [Two] and reopens the
player's turn. -/
theorem hand.Deal_four_cards_witness :
    4 ≤ sample.finished.Deck.length ∧
    Deal sample.finished = Except.ok
      { Deck := [{ Suit := Spade, Rank := Two }]
        State := StatePlayerTurn
        Player := [{ Suit := Spade, Rank := Five }, { Suit := Club, Rank := King }]
        Dealer := [{ Suit := Heart, Rank := Six }, { Suit := Diamond, Rank := Ace }]
        BetAmount := 4617315517961601024
        BetCurrency := "cash" } :=
  ⟨by decide, (hand.Deal_four_cards sample.finished (by decide)).1.trans (by decide)⟩

/-- C4: in phase PlayerTurn with a non-empty deck, `Hit` appends the first
card of the deck to the player hand, removes it from the deck, leaves the
dealer hand and the bet fields alone, and the phase is HandOver if the new
player hand scores more than 21 and PlayerTurn otherwise. -/
theorem hand.Hit_player_turn (gs : GameState) (hs : gs.State = StatePlayerTurn)
    (hd : gs.Deck ≠ []) :
    Hit gs = Except.ok
      { Deck := gs.Deck.tail
        State := if Score (gs.Player ++ [gs.Deck.head hd]) > 21 then StateHandOver
                 else StatePlayerTurn
        Player := gs.Player ++ [gs.Deck.head hd]
        Dealer := gs.Dealer
        BetAmount := gs.BetAmount
        BetCurrency := gs.BetCurrency } := by
  obtain ⟨d, st, p, dl, ba, bc⟩ := gs
  simp only at hs hd
  subst hs
  cases d with
  | nil => exact absurd rfl hd
  | cons c rest =>
    simp only [Hit, clone, GameState.CurrentPlayer, draw, HandRef.get, HandRef.set, bind,
      Except.bind, pure, Except.pure, if_true, List.head_cons, List.tail_cons]
    split <;> rfl

/-- C4 on the player hand [Ten, Nine] drawing a King: the new hand scores 29
and the phase becomes HandOver. -/
theorem hand.Hit_player_turn_witness :
    sample.tenNine.State = StatePlayerTurn ∧ sample.tenNine.Deck ≠ [] ∧
    Score [{ Suit := Heart, Rank := Ten }, { Suit := Club, Rank := Nine },
           { Suit := Spade, Rank := King }] = 29 ∧
    Hit sample.tenNine = Except.ok
      { Deck := [{ Suit := Heart, Rank := Two }]
        State := StateHandOver
        Player := [{ Suit := Heart, Rank := Ten }, { Suit := Club, Rank := Nine },
                   { Suit := Spade, Rank := King }]
        Dealer := [{ Suit := Diamond, Rank := Six }, { Suit := Diamond, Rank := Seven }]
        BetAmount := 4617315517961601024
        BetCurrency := "solana" } :=
  ⟨rfl, by decide, by decide,
    (hand.Hit_player_turn sample.tenNine rfl (by decide)).trans (by decide)⟩

end Transitions

/-! ## Standing: the dealer loop -/

section DealerLoop

open deck hand

/-- The loop stops exactly on a hand of at least 17 that is not a soft 17. -/
theorem hand.Stand_cond_false_iff (x : Hand) :
    Stand.cond x = false ↔ (17 ≤ Score x ∧ ¬ (Score x = 17 ∧ MinScore x ≠ 17)) := by
  unfold Stand.cond
  by_cases h1 : Score x < 17 <;> by_cases h2 : Score x = 17 <;>
    by_cases h3 : MinScore x = 17 <;> simp [h1, h2, h3] <;> omega

/-- A dealer loop that ends normally took the shortest prefix of the deck on
which its condition fails. -/
theorem hand.Stand_loop_ok (deck : List Card) :
    ∀ (dealer dealer' : Hand) (rest : List Card),
      Stand.loop dealer deck = Except.ok (dealer', rest) →
      ∃ n, n ≤ deck.length ∧ dealer' = dealer ++ deck.take n ∧ rest = deck.drop n ∧
        Stand.cond dealer' = false ∧
        (∀ m, m < n → Stand.cond (dealer ++ deck.take m) = true) := by
  induction deck with
  | nil =>
    intro dealer dealer' rest h
    by_cases hc : Stand.cond dealer = true
    · simp [Stand.loop, hc] at h
    · simp only [Stand.loop, hc] at h
      simp only [Bool.false_eq_true, if_false, Except.ok.injEq, Prod.mk.injEq] at h
      obtain ⟨rfl, rfl⟩ := h
      exact ⟨0, by simp, by simp, by simp, by simpa using hc, by intro m hm; omega⟩
  | cons card deck ih =>
    intro dealer dealer' rest h
    by_cases hc : Stand.cond dealer = true
    · simp only [Stand.loop, hc, if_true] at h
      obtain ⟨n, hn, hd, hr, hstop, hmin⟩ := ih _ _ _ h
      refine ⟨n + 1, by simp; omega, by simpa using hd, by simpa using hr, hstop, ?_⟩
      intro m hm
      cases m with
      | zero => simpa using hc
      | succ m =>
        have := hmin m (by omega)
        simpa using this
    · simp only [Stand.loop, hc] at h
      simp only [Bool.false_eq_true, if_false, Except.ok.injEq, Prod.mk.injEq] at h
      obtain ⟨rfl, rfl⟩ := h
      exact ⟨0, by simp, by simp, by simp, by simpa using hc, by intro m hm; omega⟩

/-- C5: when `Stand` succeeds on a state in phase PlayerTurn, the dealer hand
of the result is the old dealer hand followed by the first `n` cards of the
deck and the deck of the result is the old deck without them, where `n` is
the least number for which the extended dealer hand scores at least 17 and is
not a soft 17 (score 17 with `MinScore` other than 17). A dealer hand below
17, or a soft 17, draws at least one card. The player hand and the bet fields
are unchanged and the phase of the result is HandOver. -/
theorem hand.Stand_player_turn (gs gs' : GameState) (hs : gs.State = StatePlayerTurn)
    (hok : Stand gs = Except.ok gs') :
    ∃ n, n ≤ gs.Deck.length ∧
      gs'.Dealer = gs.Dealer ++ gs.Deck.take n ∧
      gs'.Deck = gs.Deck.drop n ∧
      (17 ≤ Score gs'.Dealer ∧ ¬ (Score gs'.Dealer = 17 ∧ MinScore gs'.Dealer ≠ 17)) ∧
      (∀ m, m < n →
        ¬ (17 ≤ Score (gs.Dealer ++ gs.Deck.take m) ∧
           ¬ (Score (gs.Dealer ++ gs.Deck.take m) = 17 ∧
              MinScore (gs.Dealer ++ gs.Deck.take m) ≠ 17))) ∧
      ((Score gs.Dealer < 17 ∨ (Score gs.Dealer = 17 ∧ MinScore gs.Dealer ≠ 17)) → 1 ≤ n) ∧
      gs'.Player = gs.Player ∧
      gs'.State = StateHandOver ∧
      gs'.BetAmount = gs.BetAmount ∧ gs'.BetCurrency = gs.BetCurrency := by
  obtain ⟨d, st, p, dl, ba, bc⟩ := gs
  simp only at hs
  subst hs
  simp only [Stand, clone, State.incr, bind, Except.bind, pure, Except.pure] at hok
  cases hl : Stand.loop dl d with
  | error e => simp [hl] at hok
  | ok res =>
    obtain ⟨dealer', rest⟩ := res
    simp [hl] at hok
    subst hok
    obtain ⟨n, hn, hd, hr, hstop, hmin⟩ := hand.Stand_loop_ok d dl dealer' rest hl
    refine ⟨n, hn, hd, hr, (hand.Stand_cond_false_iff _).mp hstop, ?_, ?_, rfl, rfl, rfl, rfl⟩
    · intro m hm hcontra
      have h1 := hmin m hm
      have h2 := (hand.Stand_cond_false_iff _).mpr hcontra
      simp only at h1 h2
      rw [h1] at h2
      exact Bool.noConfusion h2
    · intro h0
      simp only at h0
      rcases Nat.eq_zero_or_pos n with hz | hz
      · subst hz
        simp only [List.take_zero, List.append_nil] at hd
        rw [hd] at hstop
        have := (hand.Stand_cond_false_iff dl).mp hstop
        omega
      · exact hz

/-- C5 on a dealer hand [Ten, Six], 16 points, with the deck Ace, Three,
Queen: `Stand` succeeds, the dealer draws the Ace (a hard 17) and stops, and
the phase is HandOver. -/
theorem hand.Stand_player_turn_witness :
    sample.dealerSixteen.State = StatePlayerTurn ∧
    Score sample.dealerSixteen.Dealer = 16 ∧
    Stand sample.dealerSixteen = Except.ok
      { Deck := [{ Suit := Heart, Rank := Three }, { Suit := Club, Rank := Queen }]
        State := StateHandOver
        Player := [{ Suit := Heart, Rank := Ten }, { Suit := Club, Rank := Nine }]
        Dealer := [{ Suit := Diamond, Rank := Ten }, { Suit := Diamond, Rank := Six },
                   { Suit := Spade, Rank := Ace }]
        BetAmount := 4617315517961601024
        BetCurrency := "cash" } ∧
    ∃ n, n ≤ 3 ∧ 1 ≤ n ∧
      [{ Suit := Diamond, Rank := Ten }, { Suit := Diamond, Rank := Six },
        { Suit := Spade, Rank := Ace }]
        = sample.dealerSixteen.Dealer ++ sample.dealerSixteen.Deck.take n :=
  ⟨rfl, by decide, by decide,
    (hand.Stand_player_turn sample.dealerSixteen _ rfl
      (show Stand sample.dealerSixteen = Except.ok
        { Deck := [{ Suit := Heart, Rank := Three }, { Suit := Club, Rank := Queen }]
          State := StateHandOver
          Player := [{ Suit := Heart, Rank := Ten }, { Suit := Club, Rank := Nine }]
          Dealer := [{ Suit := Diamond, Rank := Ten }, { Suit := Diamond, Rank := Six },
                     { Suit := Spade, Rank := Ace }]
          BetAmount := 4617315517961601024
          BetCurrency := "cash" } by decide)).elim
      (fun n hn => ⟨n, hn.1, hn.2.2.2.2.2.1 (Or.inl (by decide)), hn.2.1⟩)⟩

end DealerLoop

/-! ## The deck builder -/

section Builder

open deck hand

/-- The loop of `deck.Shuffle`, started at position `A.length` with `A`
already stored, stores `cards[j]` for each remaining `j` of the permutation. -/
theorem deck.Shuffle_loop (cards : List Card) (p : List Nat)
    (hp : ∀ j ∈ p, j < cards.length) :
    ∀ (A B : List Card), p.length ≤ B.length →
      (p.enumFrom A.length).foldlM (Shuffle.store cards) (A ++ B)
      = Except.ok (A ++ p.map (fun j => cards[j]?.getD { Suit := 0, Rank := 0 })
          ++ B.drop p.length) := by
  induction p with
  | nil => intro A B _; simp [pure, Except.pure]
  | cons j p ih =>
    intro A B hB
    have hj : j < cards.length := hp j (List.mem_cons_self _ _)
    have hp' : ∀ i ∈ p, i < cards.length := fun i hi => hp i (List.mem_cons_of_mem _ hi)
    cases B with
    | nil => simp at hB
    | cons b B =>
      have hB' : p.length ≤ B.length := by simpa using hB
      have hset : (A ++ b :: B).set A.length cards[j] = (A ++ [cards[j]]) ++ B := by
        rw [List.set_append_right _ _ (Nat.le_refl _)]
        simp
      have hlen : A.length < (A ++ b :: B).length := by simp
      have hstore : Shuffle.store cards (A ++ b :: B) (A.length, j)
          = Except.ok ((A ++ [cards[j]]) ++ B) := by
        simp only [Shuffle.store, List.getElem?_eq_getElem hj, hlen, if_true, hset]
      rw [List.enumFrom_cons, List.foldlM_cons, hstore]
      have := ih hp' (A ++ [cards[j]]) B hB'
      simp only [List.length_append, List.length_singleton] at this
      simp only [bind, Except.bind]
      rw [this]
      simp [List.getElem?_eq_getElem hj]

theorem deck.map_getD_range (cards : List Card) (d : Card) :
    (List.range cards.length).map (fun j => cards[j]?.getD d) = cards := by
  apply List.ext_getElem
  · simp
  · intro i h1 h2
    simp [List.getElem?_eq_getElem h2]

/-- On a permutation of the positions, `deck.Shuffle` does not panic and
returns the cards read through the permutation. -/
theorem deck.Shuffle_of_perm (r : Permer) (cards : List Card)
    (hperm : (r.Perm cards.length).Perm (List.range cards.length)) :
    deck.Shuffle r cards
      = Except.ok
          ((r.Perm cards.length).map (fun j => cards[j]?.getD { Suit := 0, Rank := 0 })) := by
  have hmem : ∀ j ∈ r.Perm cards.length, j < cards.length := by
    intro j hj
    have := (hperm.mem_iff (a := j)).mp hj
    simpa using this
  have hlen : (r.Perm cards.length).length = cards.length := by
    simpa using hperm.length_eq
  have := deck.Shuffle_loop cards (r.Perm cards.length) hmem []
    (List.replicate cards.length { Suit := 0, Rank := 0 }) (by simp [hlen])
  simp only [List.length_nil, List.nil_append] at this
  simp only [deck.Shuffle, List.enum]
  rw [this]
  simp [hlen]

theorem deck.Shuffle_perm (r : Permer) (cards : List Card)
    (hperm : (r.Perm cards.length).Perm (List.range cards.length)) :
    ∃ out, deck.Shuffle r cards = Except.ok out ∧ out.Perm cards := by
  refine ⟨_, deck.Shuffle_of_perm r cards hperm, ?_⟩
  have := hperm.map (fun j => cards[j]?.getD { Suit := 0, Rank := 0 })
  rwa [deck.map_getD_range] at this

theorem threeDecks_length : threeDecks.length = 156 := rfl

theorem deck.Deck_three : deck.Deck 3 New.cards = Except.ok threeDecks := rfl

theorem threeDecks_count : ∀ s ∈ suits, ∀ r ∈ List.range' minRank 13,
    threeDecks.count { Suit := s, Rank := r } = 3 := by decide

set_option maxRecDepth 20000 in
theorem threeDecks_mem :
    ∀ c ∈ threeDecks, c.Suit ∈ suits ∧ Ace ≤ c.Rank ∧ c.Rank ≤ King := by decide

theorem deck.Deck_foldl (cards : List Card) (n : Nat) (init : List Card) :
    (List.range n).foldl (fun ret _ => ret ++ cards) init
      = init ++ (List.replicate n cards).flatten := by
  induction n with
  | zero => simp
  | succ n ih =>
    rw [List.range_succ, List.foldl_append, ih, List.replicate_succ']
    simp

/-- C6: for every game state and every random source whose answer to
`Perm(156)` is a permutation of 0..155, `Shuffle` returns the state whose
deck is the outcome of `New(Deck(3), Shuffle)`, which does not depend on the
input state: 156 cards, a rearrangement of three standard decks, each of the
52 suit/rank combinations exactly three times and no joker; Player, Dealer,
phase, BetAmount and BetCurrency are those of the input. -/
theorem hand.Shuffle_three_decks (r : Permer) (gs : GameState)
    (hperm : (r.Perm 156).Perm (List.range 156)) :
    ∃ cards, deck.New [deck.Deck 3, deck.Shuffle r] = Except.ok cards ∧
      hand.Shuffle r gs = Except.ok
        { Deck := cards
          State := gs.State
          Player := gs.Player
          Dealer := gs.Dealer
          BetAmount := gs.BetAmount
          BetCurrency := gs.BetCurrency } ∧
      cards.length = 156 ∧
      cards.Perm threeDecks ∧
      (∀ s ∈ suits, ∀ rk, Ace ≤ rk → rk ≤ King →
        cards.count { Suit := s, Rank := rk } = 3) ∧
      (∀ c ∈ cards, c.Suit ≠ Joker ∧ c.Suit ∈ suits ∧ Ace ≤ c.Rank ∧ c.Rank ≤ King) := by
  have hperm' : (r.Perm threeDecks.length).Perm (List.range threeDecks.length) := by
    rw [threeDecks_length]; exact hperm
  obtain ⟨cards, hcards, hp⟩ := deck.Shuffle_perm r threeDecks hperm'
  have hnew : deck.New [deck.Deck 3, deck.Shuffle r] = Except.ok cards := by
    simp only [deck.New, List.foldlM_cons, List.foldlM_nil, deck.Deck_three, bind, Except.bind,
      hcards, pure, Except.pure]
  refine ⟨cards, hnew, ?_, ?_, hp, ?_, ?_⟩
  · simp only [hand.Shuffle, hnew, clone, bind, Except.bind, pure, Except.pure]
  · rw [hp.length_eq, threeDecks_length]
  · intro s hs rk h1 h2
    rw [hp.count_eq]
    have hmem : rk ∈ List.range' 1 13 := List.mem_range'_1.mpr ⟨h1, Nat.lt_succ_of_le h2⟩
    exact threeDecks_count s hs rk hmem
  · intro c hc
    have hm := threeDecks_mem c (hp.mem_iff.mp hc)
    refine ⟨?_, hm⟩
    intro hj
    have := hm.1
    rw [hj] at this
    simp at this

/-- C6 with the random source that answers `n-1, ..., 0`, on a finished hand:
the new deck has 156 cards, is a rearrangement of three decks and starts with
the King of Hearts; hands, phase and bet are those of the input. -/
theorem hand.Shuffle_three_decks_witness :
    (sample.backwards.Perm 156).Perm (List.range 156) ∧
    ∃ cards, hand.Shuffle sample.backwards sample.finished = Except.ok
        { Deck := cards
          State := StateHandOver
          Player := sample.finished.Player
          Dealer := sample.finished.Dealer
          BetAmount := 4617315517961601024
          BetCurrency := "cash" } ∧
      cards.length = 156 ∧ cards.Perm threeDecks :=
  ⟨List.reverse_perm _,
    (hand.Shuffle_three_decks sample.backwards sample.finished (List.reverse_perm _)).elim
      (fun cards h => ⟨cards, h.2.1, h.2.2.1, h.2.2.2.1⟩)⟩

/-- C7: `New()` is the 52 pairwise distinct cards in which the card at index
`13*s + (r-1)` has the suit of index `s` and rank `r` (suits in the order
Spade, Diamond, Club, Heart, ranks from Ace to King); `New(o1, ..., on)` runs
the options from left to right on that sequence, so that adding an option at
the end applies it to the result of the others; and `New(Deck(k))` is `k`
copies of `New()` one after the other, `52*k` cards. -/
theorem deck.New_canonical_order (opts : List Opt) (o : Opt) (k : Nat) :
    New [] = Except.ok New.cards ∧
    New.cards.length = 52 ∧
    New.cards.Nodup ∧
    suits = [Spade, Diamond, Club, Heart] ∧
    (∀ (s : Fin 4) (r : Fin 13),
      suits[s.val]? = some s.val ∧
      New.cards[13 * s.val + r.val]? = some { Suit := s.val, Rank := Ace + r.val }) ∧
    New opts = (New [] >>= fun cards => opts.foldlM (fun cards opt => opt cards) cards) ∧
    New (opts ++ [o]) = (New opts >>= o) ∧
    New [Deck k] = Except.ok (List.replicate k New.cards).flatten ∧
    (List.replicate k New.cards).flatten.length = 52 * k := by
  refine ⟨rfl, rfl, by decide, rfl, by decide, rfl, ?_, ?_, ?_⟩
  · simp [New, List.foldlM_append]
  · simp only [New, List.foldlM_cons, List.foldlM_nil, Deck, Int.toNat_ofNat, deck.Deck_foldl,
      List.nil_append, bind, Except.bind, pure, Except.pure]
  · have h52 : New.cards.length = 52 := rfl
    simp [List.length_flatten, h52, Nat.mul_comm]

end Builder

/-! ## Ending a hand, and calls outside a turn -/

section OutsideTurn

open deck hand

/-- C8: `EndHand` returns the input state with both hands empty: the deck
(same cards, same order), the phase, BetAmount and BetCurrency are those of
the input. -/
theorem hand.EndHand_clears_hands (gs : GameState) :
    EndHand gs =
      { Deck := gs.Deck
        State := gs.State
        Player := []
        Dealer := []
        BetAmount := gs.BetAmount
        BetCurrency := gs.BetCurrency } ∧
    (EndHand gs).Player = [] ∧ (EndHand gs).Dealer = [] ∧
    (EndHand gs).Deck = gs.Deck ∧ (EndHand gs).State = gs.State ∧
    (EndHand gs).BetAmount = gs.BetAmount ∧ (EndHand gs).BetCurrency = gs.BetCurrency :=
  ⟨rfl, rfl, rfl, rfl, rfl, rfl, rfl⟩

/-- On every finished hand `Stand` returns the input with the phase set to 3. -/
theorem hand.Stand_hand_over_eq (gs : GameState) (hs : gs.State = StateHandOver) :
    Stand gs = Except.ok
      { Deck := gs.Deck
        State := 3
        Player := gs.Player
        Dealer := gs.Dealer
        BetAmount := gs.BetAmount
        BetCurrency := gs.BetCurrency } := by
  obtain ⟨d, st, p, dl, ba, bc⟩ := gs
  simp only at hs
  subst hs
  rfl

/-- C9, as the code behaves: on a finished hand (phase HandOver) `Stand` does
not fail; it returns the input state with the phase incremented to 3, which
is none of PlayerTurn, DealerTurn and HandOver, while `Hit` on the same state
panics. -/
theorem hand.Stand_after_hand_over_returns_phase_three :
    sample.finished.State = StateHandOver ∧
    Stand sample.finished = Except.ok
      { Deck := sample.finished.Deck
        State := 3
        Player := sample.finished.Player
        Dealer := sample.finished.Dealer
        BetAmount := sample.finished.BetAmount
        BetCurrency := sample.finished.BetCurrency } ∧
    (3 : State) ≠ StatePlayerTurn ∧ (3 : State) ≠ StateDealerTurn ∧
    (3 : State) ≠ StateHandOver ∧
    Hit sample.finished = Except.error Panic.notAnyPlayersTurn := by
  decide

/-- C10: in a phase that is neither PlayerTurn nor DealerTurn, whatever the
deck and the hands, `Hit` panics with "It isn't currently any players' turn":
it returns no state, so no card is appended to either hand. -/
theorem hand.Hit_outside_turn_panics (gs : GameState)
    (hp : gs.State ≠ StatePlayerTurn) (hd : gs.State ≠ StateDealerTurn) :
    Hit gs = Except.error Panic.notAnyPlayersTurn ∧
    ∀ gs', Hit gs ≠ Except.ok gs' := by
  have h : Hit gs = Except.error Panic.notAnyPlayersTurn := by
    simp only [Hit, clone, GameState.CurrentPlayer, hp, hd, if_false, bind, Except.bind]
  refine ⟨h, ?_⟩
  intro gs' hgs
  rw [h] at hgs
  exact Except.noConfusion hgs

/-- C10 on a finished hand with cards left in the deck, and on the same hand
with an empty deck: `Hit` panics on both. -/
theorem hand.Hit_outside_turn_panics_witness :
    sample.finished.State ≠ StatePlayerTurn ∧
    sample.finished.State ≠ StateDealerTurn ∧
    sample.finished.Deck ≠ [] ∧
    Hit sample.finished = Except.error Panic.notAnyPlayersTurn ∧
    Hit { sample.finished with Deck := [] } = Except.error Panic.notAnyPlayersTurn :=
  ⟨by decide, by decide, by decide,
    (hand.Hit_outside_turn_panics sample.finished (by decide) (by decide)).1, by decide⟩

end OutsideTurn

/-! ## The shape of a successful call -/

section Shapes

open deck hand

/-- On a deck that starts with four cards `Deal` hands them out alternately. -/
theorem hand.Deal_of_four (gs : GameState) (c0 c1 c2 c3 : Card) (rest : List Card)
    (hd : gs.Deck = c0 :: c1 :: c2 :: c3 :: rest) :
    Deal gs = Except.ok
      { Deck := rest
        State := StatePlayerTurn
        Player := [c0, c2]
        Dealer := [c1, c3]
        BetAmount := gs.BetAmount
        BetCurrency := gs.BetCurrency } := by
  obtain ⟨d, st, p, dl, ba, bc⟩ := gs
  simp only at hd
  subst hd
  rfl

/-- On fewer than four cards one of the draws of `Deal` panics. -/
theorem hand.Deal_short (gs : GameState) (hd : gs.Deck.length < 4) :
    Deal gs = Except.error Panic.indexOutOfRange := by
  obtain ⟨d, st, p, dl, ba, bc⟩ := gs
  match d, hd with
  | [], _ => rfl
  | [_], _ => rfl
  | [_, _], _ => rfl
  | [_, _, _], _ => rfl

/-- In the player's turn `Hit` gives the first card of the deck to the player. -/
theorem hand.Hit_player_cons (gs : GameState) (c : Card) (rest : List Card)
    (hs : gs.State = StatePlayerTurn) (hd : gs.Deck = c :: rest) :
    Hit gs = Except.ok
      { Deck := rest
        State := if Score (gs.Player ++ [c]) > 21 then StateHandOver else StatePlayerTurn
        Player := gs.Player ++ [c]
        Dealer := gs.Dealer
        BetAmount := gs.BetAmount
        BetCurrency := gs.BetCurrency } := by
  obtain ⟨d, st, p, dl, ba, bc⟩ := gs
  simp only at hs hd
  subst hs hd
  simp only [Hit, clone, GameState.CurrentPlayer, draw, HandRef.get, HandRef.set, bind,
    Except.bind, pure, Except.pure, if_true]
  split <;> rfl

/-- In the dealer's turn `Hit` gives the first card of the deck to the dealer. -/
theorem hand.Hit_dealer_cons (gs : GameState) (c : Card) (rest : List Card)
    (hs : gs.State = StateDealerTurn) (hd : gs.Deck = c :: rest) :
    Hit gs = Except.ok
      { Deck := rest
        State := if Score (gs.Dealer ++ [c]) > 21 then StateHandOver else StateDealerTurn
        Player := gs.Player
        Dealer := gs.Dealer ++ [c]
        BetAmount := gs.BetAmount
        BetCurrency := gs.BetCurrency } := by
  obtain ⟨d, st, p, dl, ba, bc⟩ := gs
  simp only at hs hd
  subst hs hd
  have h01 : ¬ ((1 : Int) = 0) := by decide
  simp only [Hit, clone, GameState.CurrentPlayer, draw, HandRef.get, HandRef.set, bind,
    Except.bind, pure, Except.pure, h01, if_true, if_false]
  split <;> rfl

/-- In either turn the draw of `Hit` panics on an empty deck. -/
theorem hand.Hit_of_nil (gs : GameState)
    (hs : gs.State = StatePlayerTurn ∨ gs.State = StateDealerTurn) (hd : gs.Deck = []) :
    Hit gs = Except.error Panic.indexOutOfRange := by
  obtain ⟨d, st, p, dl, ba, bc⟩ := gs
  simp only at hs hd
  subst hd
  rcases hs with hs | hs <;> subst hs <;> rfl

/-- Outside the two turns `Hit` panics in `CurrentPlayer`. -/
theorem hand.Hit_outside (gs : GameState)
    (hp : gs.State ≠ StatePlayerTurn) (hd : gs.State ≠ StateDealerTurn) :
    Hit gs = Except.error Panic.notAnyPlayersTurn := by
  simp only [Hit, clone, GameState.CurrentPlayer, hp, hd, if_false, bind, Except.bind]

/-- A successful `Hit` moves the first card of the deck to one of the hands. -/
theorem hand.Hit_ok_shape (a b : GameState) (h : Hit a = Except.ok b) :
    ∃ c, a.Deck = c :: b.Deck ∧
      ((a.State = StatePlayerTurn ∧ b.Player = a.Player ++ [c] ∧ b.Dealer = a.Dealer) ∨
       (a.State = StateDealerTurn ∧ b.Player = a.Player ∧ b.Dealer = a.Dealer ++ [c])) ∧
      (b.State = a.State ∨ b.State = StateHandOver) := by
  by_cases hp : a.State = StatePlayerTurn
  · cases hd : a.Deck with
    | nil =>
      rw [hand.Hit_of_nil a (Or.inl hp) hd] at h
      exact Except.noConfusion h
    | cons c rest =>
      rw [hand.Hit_player_cons a c rest hp hd] at h
      injection h with h
      subst h
      refine ⟨c, rfl, Or.inl ⟨hp, rfl, rfl⟩, ?_⟩
      simp only
      split
      · exact Or.inr rfl
      · exact Or.inl hp.symm
  · by_cases hdt : a.State = StateDealerTurn
    · cases hd : a.Deck with
      | nil =>
        rw [hand.Hit_of_nil a (Or.inr hdt) hd] at h
        exact Except.noConfusion h
      | cons c rest =>
        rw [hand.Hit_dealer_cons a c rest hdt hd] at h
        injection h with h
        subst h
        refine ⟨c, rfl, Or.inr ⟨hdt, rfl, rfl⟩, ?_⟩
        simp only
        split
        · exact Or.inr rfl
        · exact Or.inl hdt.symm
    · rw [hand.Hit_outside a hp hdt] at h
      exact Except.noConfusion h

/-- A successful `Stand` moves a prefix of the deck to the dealer hand. -/
theorem hand.Stand_ok_shape (a b : GameState) (h : Stand a = Except.ok b) :
    ∃ n, n ≤ a.Deck.length ∧ b.Deck = a.Deck.drop n ∧
      b.Dealer = a.Dealer ++ a.Deck.take n ∧ b.Player = a.Player ∧
      ((State.incr a.State = StateDealerTurn ∧ b.State = StateHandOver) ∨
       (State.incr a.State ≠ StateDealerTurn ∧ n = 0 ∧ b.State = State.incr a.State)) := by
  obtain ⟨d, st, p, dl, ba, bc⟩ := a
  by_cases hi : State.incr st = StateDealerTurn
  · simp only [Stand, clone, hi, if_true, bind, Except.bind, pure, Except.pure] at h
    cases hl : Stand.loop dl d with
    | error e => simp [hl] at h
    | ok res =>
      obtain ⟨dealer', rest⟩ := res
      simp [hl] at h
      subst h
      obtain ⟨n, hn, hd, hr, _, _⟩ := hand.Stand_loop_ok d dl dealer' rest hl
      exact ⟨n, hn, hr, hd, rfl, Or.inl ⟨hi, rfl⟩⟩
  · simp only [Stand, clone, hi, if_false, bind, Except.bind, pure, Except.pure] at h
    injection h with h
    subst h
    exact ⟨0, by simp, by simp, by simp, rfl, Or.inr ⟨hi, rfl, rfl⟩⟩

/-- Moving a prefix of the deck to the end of the dealer hand rearranges the cards. -/
theorem hand.move_prefix_perm (deck p d : List Card) (n : Nat) :
    (deck.drop n ++ p ++ (d ++ deck.take n)).Perm (deck ++ p ++ d) := by
  rw [List.perm_iff_count]
  intro c
  have := congrArg (List.count c) (List.take_append_drop n deck)
  simp only [List.count_append] at this ⊢
  omega

end Shapes

/-! ## Drawing from an exhausted deck -/

section Exhausted

open deck hand

/-- C11: a draw on an empty deck fails and produces no card. `Deal` returns a
state if and only if the deck holds at least four cards, and `Hit` in phase
PlayerTurn or DealerTurn returns a state if and only if the deck is not
empty; in the other cases the call ends in the index-out-of-range panic of
`cards[0]` and no state is returned. -/
theorem hand.draw_fails_on_empty_deck (gs : GameState) :
    draw [] = Except.error Panic.indexOutOfRange ∧
    ((∃ gs', Deal gs = Except.ok gs') ↔ 4 ≤ gs.Deck.length) ∧
    (gs.Deck.length < 4 → Deal gs = Except.error Panic.indexOutOfRange) ∧
    (gs.State = StatePlayerTurn ∨ gs.State = StateDealerTurn →
      ((∃ gs', Hit gs = Except.ok gs') ↔ gs.Deck ≠ []) ∧
      (gs.Deck = [] → Hit gs = Except.error Panic.indexOutOfRange)) := by
  refine ⟨rfl, ?_, hand.Deal_short gs, ?_⟩
  · constructor
    · rintro ⟨gs', h⟩
      by_contra hlt
      rw [hand.Deal_short gs (by omega)] at h
      exact Except.noConfusion h
    · intro h4
      match hd : gs.Deck, h4 with
      | c0 :: c1 :: c2 :: c3 :: rest, _ => exact ⟨_, hand.Deal_of_four gs c0 c1 c2 c3 rest hd⟩
  · intro hs
    refine ⟨?_, hand.Hit_of_nil gs hs⟩
    constructor
    · rintro ⟨gs', h⟩ hnil
      rw [hand.Hit_of_nil gs hs hnil] at h
      exact Except.noConfusion h
    · intro hne
      cases hd : gs.Deck with
      | nil => exact absurd hd hne
      | cons c rest =>
        rcases hs with hs | hs
        · exact ⟨_, hand.Hit_player_cons gs c rest hs hd⟩
        · exact ⟨_, hand.Hit_dealer_cons gs c rest hs hd⟩

/-- C11 on the state with the two-card deck: `Deal` panics, `Hit` returns a
state, and `Hit` on the same state without a deck panics. -/
theorem hand.draw_fails_on_empty_deck_witness :
    sample.tenNine.Deck.length < 4 ∧
    Deal sample.tenNine = Except.error Panic.indexOutOfRange ∧
    sample.tenNine.State = StatePlayerTurn ∧ sample.tenNine.Deck ≠ [] ∧
    (∃ gs', Hit sample.tenNine = Except.ok gs') ∧
    Hit { sample.tenNine with Deck := [] } = Except.error Panic.indexOutOfRange :=
  ⟨by decide, (hand.draw_fails_on_empty_deck sample.tenNine).2.2.1 (by decide), rfl, by decide,
    ((hand.draw_fails_on_empty_deck sample.tenNine).2.2.2 (Or.inl rfl)).1.mpr (by decide),
    ((hand.draw_fails_on_empty_deck { sample.tenNine with Deck := [] }).2.2.2 (Or.inl rfl)).2 rfl⟩

end Exhausted

/-! ## Jokers -/

section JokerCards

open deck hand

theorem deck.Jokers_foldl (n : Nat) (cs : List Card) :
    (List.range n).foldl (fun cards i => cards ++ [{ Suit := Joker, Rank := i % 256 }]) cs
      = cs ++ (List.range n).map (fun i => ({ Suit := Joker, Rank := i % 256 } : Card)) := by
  induction n with
  | zero => simp
  | succ n ih =>
    rw [List.range_succ, List.foldl_append, ih]
    simp

/-- One more card adds `min(rank, 10)` to `MinScore`. -/
theorem hand.MinScore_append_single (h : Hand) (c : Card) :
    MinScore (h ++ [c]) = MinScore h + Min.min c.Rank 10 := by
  simp [hand.MinScore_eq_sum]

/-- A card of rank 0 at the end of a hand changes neither score. -/
theorem hand.Score_append_rank_zero (h : Hand) (j : Card) (hj : j.Rank = 0) :
    MinScore (h ++ [j]) = MinScore h ∧ Score (h ++ [j]) = Score h := by
  have hm : MinScore (h ++ [j]) = MinScore h := by
    rw [hand.MinScore_append_single, hj]; rfl
  refine ⟨hm, ?_⟩
  have hA : (∃ c ∈ h ++ [j], c.Rank = Ace) ↔ (∃ c ∈ h, c.Rank = Ace) := by
    constructor
    · rintro ⟨c, hc, hr⟩
      rcases List.mem_append.mp hc with hc | hc
      · exact ⟨c, hc, hr⟩
      · have : c = j := by simpa using hc
        rw [this, hj] at hr
        exact absurd hr (by decide)
    · rintro ⟨c, hc, hr⟩
      exact ⟨c, List.mem_append_left _ hc, hr⟩
  rw [hand.Score_eq, hand.Score_eq, hm]
  simp only [hA]

/-- C12, as the code behaves: `Jokers(n)(cs)` is `cs` followed by exactly `n`
cards of suit Joker, the one of index `i` with rank `i mod 256`. Scoring
reads the rank and never the suit: appending a card `j` adds
`min(rank j, 10)` to `MinScore`, so a joker of rank 0, such as the first one,
leaves `MinScore` and `Score` unchanged. -/
theorem deck.Jokers_appends_ranked_jokers (n : Nat) (cs : List Card) (h : Hand) (j : Card) :
    Jokers n cs
      = Except.ok (cs ++ (List.range n).map (fun i => ({ Suit := Joker, Rank := i % 256 } : Card))) ∧
    ((List.range n).map (fun i => ({ Suit := Joker, Rank := i % 256 } : Card))).length = n ∧
    (∀ c ∈ (List.range n).map (fun i => ({ Suit := Joker, Rank := i % 256 } : Card)),
      c.Suit = Joker) ∧
    MinScore (h ++ [j]) = MinScore h + Min.min j.Rank 10 ∧
    (j.Rank = 0 → MinScore (h ++ [j]) = MinScore h ∧ Score (h ++ [j]) = Score h) := by
  refine ⟨?_, by simp, ?_, hand.MinScore_append_single h j, hand.Score_append_rank_zero h j⟩
  · simp only [Jokers, Int.toNat_ofNat, deck.Jokers_foldl]
  · intro c hc
    obtain ⟨i, _, rfl⟩ := List.mem_map.mp hc
    rfl

/-- C12 fails as stated: the second joker of `Jokers(2)` has rank 1 and is
scored as an ace; appended to a King it raises `MinScore` from 10 to 11 and
`Score` from 10 to 21. -/
theorem deck.Jokers_second_joker_counts_as_ace :
    Jokers 2 [] = Except.ok [{ Suit := Joker, Rank := 0 }, { Suit := Joker, Rank := 1 }] ∧
    MinScore [{ Suit := Spade, Rank := King }] = 10 ∧
    MinScore ([{ Suit := Spade, Rank := King }] ++ [{ Suit := Joker, Rank := 1 }]) = 11 ∧
    Score [{ Suit := Spade, Rank := King }] = 10 ∧
    Score ([{ Suit := Spade, Rank := King }] ++ [{ Suit := Joker, Rank := 1 }]) = 21 ∧
    ¬ (∀ (n : Nat) (cs out : List Card) (h : Hand) (j : Card),
        Jokers n cs = Except.ok out → j ∈ out.drop cs.length →
        MinScore (h ++ [j]) = MinScore h ∧ Score (h ++ [j]) = Score h) := by
  refine ⟨by decide, by decide, by decide, by decide, by decide, ?_⟩
  intro hall
  have := (hall 2 [] [{ Suit := Joker, Rank := 0 }, { Suit := Joker, Rank := 1 }]
    [{ Suit := Spade, Rank := King }] { Suit := Joker, Rank := 1 } (by decide) (by decide)).1
  exact absurd this (by decide)

/-- C12 amended, for three jokers after the King of Spades and for the joker
of rank 0 appended to the hand [King]: the scores stay at 10. -/
theorem deck.Jokers_appends_ranked_jokers_witness :
    Jokers 3 [{ Suit := Spade, Rank := King }]
      = Except.ok [{ Suit := Spade, Rank := King }, { Suit := Joker, Rank := 0 },
          { Suit := Joker, Rank := 1 }, { Suit := Joker, Rank := 2 }] ∧
    ({ Suit := Joker, Rank := 0 } : Card).Rank = 0 ∧
    MinScore ([{ Suit := Spade, Rank := King }] ++ [{ Suit := Joker, Rank := 0 }]) = 10 ∧
    Score ([{ Suit := Spade, Rank := King }] ++ [{ Suit := Joker, Rank := 0 }])
      = Score [{ Suit := Spade, Rank := King }] :=
  ⟨(deck.Jokers_appends_ranked_jokers 3 [{ Suit := Spade, Rank := King }]
      [{ Suit := Spade, Rank := King }] { Suit := Joker, Rank := 0 }).1.trans (by decide),
    rfl,
    ((deck.Jokers_appends_ranked_jokers 3 [{ Suit := Spade, Rank := King }]
      [{ Suit := Spade, Rank := King }] { Suit := Joker, Rank := 0 }).2.2.2.2 rfl).1.trans
      (by decide),
    ((deck.Jokers_appends_ranked_jokers 3 [{ Suit := Spade, Rank := King }]
      [{ Suit := Spade, Rank := King }] { Suit := Joker, Rank := 0 }).2.2.2.2 rfl).2⟩

end JokerCards

/-! ## One shuffle lifetime -/

section Lifetime

open deck hand

/-- On a permutation of the positions `Shuffle` installs a rearrangement of
three decks and copies the other fields. -/
theorem hand.Shuffle_ok (r : Permer) (gs : GameState)
    (hperm : (r.Perm 156).Perm (List.range 156)) :
    ∃ cards, cards.Perm threeDecks ∧
      hand.Shuffle r gs = Except.ok
        { Deck := cards
          State := gs.State
          Player := gs.Player
          Dealer := gs.Dealer
          BetAmount := gs.BetAmount
          BetCurrency := gs.BetCurrency } := by
  have hperm' : (r.Perm threeDecks.length).Perm (List.range threeDecks.length) := by
    rw [threeDecks_length]; exact hperm
  obtain ⟨cards, hcards, hp⟩ := deck.Shuffle_perm r threeDecks hperm'
  have hnew : deck.New [deck.Deck 3, deck.Shuffle r] = Except.ok cards := by
    simp only [deck.New, List.foldlM_cons, List.foldlM_nil, deck.Deck_three, bind, Except.bind,
      hcards, pure, Except.pure]
  refine ⟨cards, hp, ?_⟩
  simp only [hand.Shuffle, hnew, clone, bind, Except.bind, pure, Except.pure]

/-- `Shuffle` keeps the phase. -/
theorem hand.Shuffle_ok_state (r : Permer) (a b : GameState)
    (h : hand.Shuffle r a = Except.ok b) :
    b.State = a.State ∧ b.Player = a.Player ∧ b.Dealer = a.Dealer := by
  simp only [hand.Shuffle, clone, bind, Except.bind, pure, Except.pure] at h
  cases hn : deck.New [deck.Deck 3, deck.Shuffle r] with
  | error e => simp [hn] at h
  | ok cards =>
    simp only [hn] at h
    injection h with h
    subst h
    exact ⟨rfl, rfl, rfl⟩

/-- A successful `Deal` opens the player's turn with two cards in each hand,
all taken from the deck. -/
theorem hand.Deal_ok_shape (a b : GameState) (h : Deal a = Except.ok b) :
    b.State = StatePlayerTurn ∧ b.Player.length = 2 ∧ b.Dealer.length = 2 ∧
    (b.Deck ++ b.Player ++ b.Dealer).Perm a.Deck := by
  by_cases h4 : 4 ≤ a.Deck.length
  · match hd : a.Deck, h4 with
    | c0 :: c1 :: c2 :: c3 :: rest, _ =>
      rw [hand.Deal_of_four a c0 c1 c2 c3 rest hd] at h
      injection h with h
      subst h
      refine ⟨rfl, rfl, rfl, ?_⟩
      rw [List.perm_iff_count]
      intro c
      simp only [List.count_append, List.count_cons, List.count_nil]
      omega
  · rw [hand.Deal_short a (by omega)] at h
    exact Except.noConfusion h

/-- No card occurs more than three times in three decks. -/
theorem threeDecks_count_le (c : Card) : threeDecks.count c ≤ 3 := by
  by_cases hc : c ∈ threeDecks
  · have hm := threeDecks_mem c hc
    obtain ⟨s, rk⟩ := c
    have hmem : rk ∈ List.range' 1 13 := List.mem_range'_1.mpr ⟨hm.2.1, Nat.lt_succ_of_le hm.2.2⟩
    exact Nat.le_of_eq (threeDecks_count s hm.1 rk hmem)
  · rw [List.count_eq_zero_of_not_mem hc]
    exact Nat.zero_le _

/-- In one shuffle lifetime the cards of the deck and the two hands never
occur more often than in three decks. -/
theorem hand.Reachable_count_le (r : Permer) (hperm : (r.Perm 156).Perm (List.range 156))
    (gs : GameState) (hreach : hand.Reachable r gs) :
    ∀ c, (gs.Deck ++ gs.Player ++ gs.Dealer).count c ≤ threeDecks.count c := by
  induction hreach with
  | shuffle gs0 gs hP hD hsh =>
    obtain ⟨cards, hp, heq⟩ := hand.Shuffle_ok r gs0 hperm
    rw [heq] at hsh
    injection hsh with hsh
    subst hsh
    intro c
    simp only [hP, hD, List.append_nil]
    exact Nat.le_of_eq (hp.count_eq c)
  | deal gs gs' _ hdeal ih =>
    intro c
    have hp := (hand.Deal_ok_shape gs gs' hdeal).2.2.2
    have h1 := hp.count_eq c
    have h2 := ih c
    simp only [List.count_append] at h1 h2 ⊢
    omega
  | hit gs gs' _ hhit ih =>
    intro c
    obtain ⟨x, hdeck, hmove, _⟩ := hand.Hit_ok_shape gs gs' hhit
    have h2 := ih c
    rw [hdeck] at h2
    rcases hmove with ⟨_, hp, hd⟩ | ⟨_, hp, hd⟩ <;>
      simp only [hp, hd, List.count_append, List.count_cons, List.count_nil] at h2 ⊢ <;> omega
  | stand gs gs' _ hstand ih =>
    intro c
    obtain ⟨n, _, hdeck, hdealer, hplayer, _⟩ := hand.Stand_ok_shape gs gs' hstand
    have h2 := ih c
    have h3 := (hand.move_prefix_perm gs.Deck gs.Player gs.Dealer n).count_eq c
    rw [hdeck, hdealer, hplayer]
    omega
  | endHand gs _ ih =>
    intro c
    have h2 := ih c
    have hE : (EndHand gs).Deck = gs.Deck ∧ (EndHand gs).Player = [] ∧ (EndHand gs).Dealer = [] :=
      ⟨rfl, rfl, rfl⟩
    simp only [hE.1, hE.2.1, hE.2.2, List.count_append, List.count_nil] at h2 ⊢
    omega

/-- C14: for a random source that answers `Perm(156)` with a permutation,
in every state reached from `Shuffle` on empty hands by successful `Deal`,
`Hit`, `Stand` and `EndHand` calls the cards of Deck, Player and Dealer
together are contained, as a multiset, in three decks, so no card occurs more
than three times. Every successful `Hit` moves the first card of the deck to
the end of one hand, every successful `Stand` moves a prefix of the deck to
the end of the dealer hand, and both keep the multiset of all cards. -/
theorem hand.no_card_drawn_twice (r : Permer) (gs : GameState)
    (hperm : (r.Perm 156).Perm (List.range 156)) (hreach : hand.Reachable r gs) :
    (gs.Deck ++ gs.Player ++ gs.Dealer).Subperm threeDecks ∧
    (∀ c, (gs.Deck ++ gs.Player ++ gs.Dealer).count c ≤ 3) ∧
    (∀ a b, Hit a = Except.ok b →
      (b.Deck ++ b.Player ++ b.Dealer).Perm (a.Deck ++ a.Player ++ a.Dealer) ∧
      ∃ c, a.Deck = c :: b.Deck ∧
        ((b.Player = a.Player ++ [c] ∧ b.Dealer = a.Dealer) ∨
         (b.Player = a.Player ∧ b.Dealer = a.Dealer ++ [c]))) ∧
    (∀ a b, Stand a = Except.ok b →
      (b.Deck ++ b.Player ++ b.Dealer).Perm (a.Deck ++ a.Player ++ a.Dealer) ∧
      ∃ n, n ≤ a.Deck.length ∧ b.Deck = a.Deck.drop n ∧
        b.Dealer = a.Dealer ++ a.Deck.take n ∧ b.Player = a.Player) := by
  have hcount := hand.Reachable_count_le r hperm gs hreach
  refine ⟨List.subperm_ext_iff.mpr (fun c _ => hcount c),
    fun c => Nat.le_trans (hcount c) (threeDecks_count_le c), ?_, ?_⟩
  · intro a b h
    obtain ⟨c, hdeck, hmove, _⟩ := hand.Hit_ok_shape a b h
    refine ⟨?_, c, hdeck, ?_⟩
    · rw [List.perm_iff_count]
      intro x
      rw [hdeck]
      rcases hmove with ⟨_, hp, hd⟩ | ⟨_, hp, hd⟩ <;>
        simp only [hp, hd, List.count_append, List.count_cons, List.count_nil] <;> omega
    · rcases hmove with ⟨_, hp, hd⟩ | ⟨_, hp, hd⟩
      · exact Or.inl ⟨hp, hd⟩
      · exact Or.inr ⟨hp, hd⟩
  · intro a b h
    obtain ⟨n, hn, hdeck, hdealer, hplayer, _⟩ := hand.Stand_ok_shape a b h
    refine ⟨?_, n, hn, hdeck, hdealer, hplayer⟩
    rw [hdeck, hdealer, hplayer]
    exact hand.move_prefix_perm a.Deck a.Player a.Dealer n

/-- On four cards or more `Deal` returns a state. -/
theorem hand.Deal_ok_of_four (gs : GameState) (h4 : 4 ≤ gs.Deck.length) :
    ∃ gs', Deal gs = Except.ok gs' := by
  match hd : gs.Deck, h4 with
  | c0 :: c1 :: c2 :: c3 :: rest, _ => exact ⟨_, hand.Deal_of_four gs c0 c1 c2 c3 rest hd⟩

/-- C14 for the state dealt from a fresh shuffle with the random source that
answers `n-1, ..., 0`: it is reachable, holds two cards in each hand, and its
cards are contained in three decks. -/
theorem hand.no_card_drawn_twice_witness :
    (sample.backwards.Perm 156).Perm (List.range 156) ∧
    ∃ gs, hand.Reachable sample.backwards gs ∧ gs.Player.length = 2 ∧ gs.Dealer.length = 2 ∧
      (gs.Deck ++ gs.Player ++ gs.Dealer).Subperm threeDecks := by
  have hperm : (sample.backwards.Perm 156).Perm (List.range 156) := List.reverse_perm _
  obtain ⟨cards, hp, hsh⟩ := hand.Shuffle_ok sample.backwards sample.fresh hperm
  have h0 := hand.Reachable.shuffle (r := sample.backwards) sample.fresh _ rfl rfl hsh
  obtain ⟨gs, hdeal⟩ := hand.Deal_ok_of_four
    { Deck := cards, State := sample.fresh.State, Player := sample.fresh.Player,
      Dealer := sample.fresh.Dealer, BetAmount := sample.fresh.BetAmount,
      BetCurrency := sample.fresh.BetCurrency }
    (by simp only [hp.length_eq, threeDecks_length]; decide)
  have h1 := hand.Reachable.deal _ gs h0 hdeal
  have hshape := hand.Deal_ok_shape _ gs hdeal
  exact ⟨hperm, gs, h1, hshape.2.1, hshape.2.2.1,
    (hand.no_card_drawn_twice sample.backwards gs hperm h1).1⟩

end Lifetime

/-! ## A bound on the dealer's draws -/

section DealerBound

open deck hand

/-- A hand whose `MinScore` has reached 17 stops the dealer loop. -/
theorem hand.Stand_cond_false_of_MinScore (x : Hand) (hx : 17 ≤ MinScore x) :
    Stand.cond x = false := by
  rw [hand.Stand_cond_false_iff]
  have hs := hand.Score_eq x
  rw [if_neg (fun hc => by omega)] at hs
  omega

/-- On cards of rank at least 1 the dealer loop returns after at most
`17 - MinScore dealer` draws, if the deck holds that many cards. -/
theorem hand.Stand_loop_bound (deck : List Card) :
    ∀ (dealer : Hand), (∀ c ∈ deck, 1 ≤ c.Rank) → 17 - MinScore dealer ≤ deck.length →
      ∃ n, n ≤ 17 - MinScore dealer ∧
        Stand.loop dealer deck = Except.ok (dealer ++ deck.take n, deck.drop n) := by
  induction deck with
  | nil =>
    intro dealer _ hlen
    have hc := hand.Stand_cond_false_of_MinScore dealer (by simp at hlen; omega)
    exact ⟨0, by omega, by simp [Stand.loop, hc]⟩
  | cons card deck ih =>
    intro dealer hr hlen
    by_cases hc : Stand.cond dealer = true
    · have hM : MinScore dealer < 17 := by
        by_contra hge
        have := hand.Stand_cond_false_of_MinScore dealer (by omega)
        rw [this] at hc
        exact Bool.noConfusion hc
      have hcard : 1 ≤ card.Rank := hr card (List.mem_cons_self _ _)
      have hM' := hand.MinScore_append_single dealer card
      have hmin : 1 ≤ Min.min card.Rank 10 := by omega
      obtain ⟨n, hn, hloop⟩ := ih (dealer ++ [card])
        (fun c hc => hr c (List.mem_cons_of_mem _ hc))
        (by simp only [List.length_cons] at hlen; omega)
      refine ⟨n + 1, by omega, ?_⟩
      simp only [Stand.loop, hc, if_true, hloop]
      simp
    · have hc' : Stand.cond dealer = false := by simpa using hc
      exact ⟨0, by omega, by simp [Stand.loop, hc']⟩

/-- C15: in phase PlayerTurn with a deck whose cards all have rank at least
Ace, a `Stand` that returns has drawn at most `17 - MinScore(Dealer)` cards
(none when `MinScore` is 17 or more); `Stand` returns a state whenever the
deck holds at least that many cards, and so whenever it holds 17 cards. -/
theorem hand.Stand_draws_bounded (gs : GameState) (hs : gs.State = StatePlayerTurn)
    (hr : ∀ c ∈ gs.Deck, Ace ≤ c.Rank) :
    (∀ gs', Stand gs = Except.ok gs' →
      ∃ n, n ≤ 17 - MinScore gs.Dealer ∧ n ≤ gs.Deck.length ∧
        gs'.Dealer = gs.Dealer ++ gs.Deck.take n ∧ gs'.Deck = gs.Deck.drop n) ∧
    (17 - MinScore gs.Dealer ≤ gs.Deck.length → ∃ gs', Stand gs = Except.ok gs') ∧
    (17 ≤ gs.Deck.length → ∃ gs', Stand gs = Except.ok gs') := by
  have hsucc : 17 - MinScore gs.Dealer ≤ gs.Deck.length →
      ∃ gs' n, n ≤ 17 - MinScore gs.Dealer ∧ n ≤ gs.Deck.length ∧
        Stand gs = Except.ok gs' ∧
        gs'.Dealer = gs.Dealer ++ gs.Deck.take n ∧ gs'.Deck = gs.Deck.drop n := by
    intro hlen
    obtain ⟨n, hn, hloop⟩ := hand.Stand_loop_bound gs.Deck gs.Dealer hr hlen
    obtain ⟨d, st, p, dl, ba, bc⟩ := gs
    simp only at hs hloop hn hlen
    subst hs
    refine ⟨{ Deck := d.drop n, State := StateHandOver, Player := p, Dealer := dl ++ d.take n,
              BetAmount := ba, BetCurrency := bc }, n, hn, Nat.le_trans hn hlen, ?_, rfl, rfl⟩
    simp only [Stand, clone, bind, Except.bind, pure, Except.pure, hloop]
    rfl
  refine ⟨?_, ?_, ?_⟩
  · intro gs' hok
    by_cases hlen : 17 - MinScore gs.Dealer ≤ gs.Deck.length
    · obtain ⟨gs'', n, hn, hn', hok', hd, hk⟩ := hsucc hlen
      rw [hok] at hok'
      injection hok' with hok'
      subst hok'
      exact ⟨n, hn, hn', hd, hk⟩
    · obtain ⟨n, hn, hdeck, hdealer, _, _⟩ := hand.Stand_ok_shape gs gs' hok
      exact ⟨n, by omega, hn, hdealer, hdeck⟩
  · intro hlen
    obtain ⟨gs', _, _, _, hok, _⟩ := hsucc hlen
    exact ⟨gs', hok⟩
  · intro hlen
    obtain ⟨gs', _, _, _, hok, _⟩ := hsucc (by omega)
    exact ⟨gs', hok⟩

/-- C15 on the dealer hand [Ten, Six] with a three-card deck: the bound is one
card and `Stand` returns a state. -/
theorem hand.Stand_draws_bounded_witness :
    sample.dealerSixteen.State = StatePlayerTurn ∧
    (∀ c ∈ sample.dealerSixteen.Deck, Ace ≤ c.Rank) ∧
    17 - MinScore sample.dealerSixteen.Dealer = 1 ∧
    ∃ gs', Stand sample.dealerSixteen = Except.ok gs' :=
  ⟨rfl, by decide, by decide,
    (hand.Stand_draws_bounded sample.dealerSixteen rfl (by decide)).2.1 (by decide)⟩

end DealerBound

/-! ## The order of the phases -/

section PhaseOrder

open deck hand

/-- From one of the three phases, a successful `Hit` does not lower the
phase, a successful `Stand` outside HandOver ends in HandOver, `EndHand` and
`Shuffle` keep the phase, and a successful `Deal` opens the player's turn
with two cards in each hand. -/
theorem hand.phase_step_monotone (r : Permer) (a b : GameState)
    (hph : a.State = StatePlayerTurn ∨ a.State = StateDealerTurn ∨ a.State = StateHandOver) :
    (Hit a = Except.ok b → a.State ≤ b.State ∧ b.State ≤ StateHandOver) ∧
    (a.State ≠ StateHandOver → Stand a = Except.ok b → b.State = StateHandOver) ∧
    (EndHand a).State = a.State ∧
    (hand.Shuffle r a = Except.ok b → b.State = a.State) ∧
    (Deal a = Except.ok b →
      b.State = StatePlayerTurn ∧ b.Player.length = 2 ∧ b.Dealer.length = 2) := by
  refine ⟨?_, ?_, rfl, fun h => (hand.Shuffle_ok_state r a b h).1, ?_⟩
  · intro h
    obtain ⟨c, _, _, hst⟩ := hand.Hit_ok_shape a b h
    rcases hst with hst | hst <;> rcases hph with hph | hph | hph <;>
      simp only [hst, hph] <;> decide
  · intro hne h
    obtain ⟨n, _, _, _, _, hst⟩ := hand.Stand_ok_shape a b h
    rcases hst with ⟨_, hb⟩ | ⟨hi, _, hb⟩
    · exact hb
    · rcases hph with hph | hph | hph
      · rw [hph] at hi
        exact absurd rfl hi
      · rw [hb, hph]
        rfl
      · exact absurd hph hne
  · intro h
    have := hand.Deal_ok_shape a b h
    exact ⟨this.1, this.2.1, this.2.2.1⟩

set_option maxRecDepth 100000 in
/-- C13, as the code behaves: from a finished hand (phase HandOver) every
`Stand` succeeds and adds one to the phase: one call gives 3, which is none
of the three phases, 125 calls give 127, the next one wraps around to -128,
and 254 calls in a row give back the input in phase PlayerTurn, with no
`Deal` in between. -/
theorem hand.Stand_repeated_returns_to_player_turn :
    sample.finished.State = StateHandOver ∧
    standTimes 1 sample.finished = Except.ok { sample.finished with State := 3 } ∧
    standTimes 125 sample.finished = Except.ok { sample.finished with State := 127 } ∧
    standTimes 126 sample.finished = Except.ok { sample.finished with State := -128 } ∧
    standTimes 254 sample.finished
      = Except.ok { sample.finished with State := StatePlayerTurn } := by
  decide

end PhaseOrder
